import Mathlib

/-!
# Verification of the CV-MCP document/PDF helper pipeline

Shallow embedding of the Python sources of the CV-MCP repository:
`pdf_exporter.py`, `template_manager.py`, `vision_replicator.py`,
`ai_editor.py`, `document_converter.py`.  Python strings are modeled as
`List Char` (one element per code point); the filesystem is modeled as an
association list from path to content; external renderers (pyppeteer,
WeasyPrint, LibreOffice, PyMuPDF, PIL) are represented by oracle values
describing their outcome, since they are third-party binaries outside the
repository.
-/

namespace CV

/-- Python whitespace characters recognised by `str.strip()` (ASCII range;
the sources only ever strip ASCII whitespace). -/
def isPySpace (c : Char) : Bool :=
  c = ' ' || c = '\t' || c = '\n' || c = '\r' || c = '\x0b' || c = '\x0c'

/-- Python `str.lstrip()` on the underlying character list. -/
def stripL (s : List Char) : List Char := s.dropWhile isPySpace

/-- Remove the longest suffix whose characters all satisfy `u`. -/
def dropEndWhile (u : Char → Bool) : List Char → List Char
  | [] => []
  | c :: rest =>
    let r := dropEndWhile u rest
    if r = [] && u c then [] else c :: r

/-- Python `str.rstrip()` on the underlying character list. -/
def stripR (s : List Char) : List Char := dropEndWhile isPySpace s

/-- Python `str.strip()` : remove leading and trailing whitespace. -/
def pstrip (s : List Char) : List Char := stripL (stripR s)

/-- Python `str.startswith(pat)` : `pat` starts `s`. -/
def hasPre : List Char → List Char → Bool
  | [], _ => true
  | _ :: _, [] => false
  | a :: as, b :: bs => a = b && hasPre as bs

/-- Python `str.find(pat)` : index of the first occurrence of `pat`, if any. -/
def findSub (pat : List Char) : List Char → Option Nat
  | [] => if hasPre pat [] then some 0 else none
  | c :: rest =>
    if hasPre pat (c :: rest) then some 0
    else (findSub pat rest).map (· + 1)

/-- Python `str.rfind(pat)` : index of the last occurrence of `pat`, if any. -/
def rfindSub (pat : List Char) : List Char → Option Nat
  | [] => if hasPre pat [] then some 0 else none
  | c :: rest =>
    match rfindSub pat rest with
    | some i => some (i + 1)
    | none => if hasPre pat (c :: rest) then some 0 else none

/-- Python substring containment, the expression pat in s. -/
def containsSub (pat s : List Char) : Bool := (findSub pat s).isSome

/-- Python slice `s[a:b]` for non-negative bounds (empty when `b ≤ a`,
clamped at the end of the string). -/
def sliceL (s : List Char) (a b : Nat) : List Char := (s.drop a).take (b - a)

/-- Python `str.lower()` character-wise (the sources only lowercase ASCII). -/
def lowerL (s : List Char) : List Char := s.map Char.toLower

/-- Python `str.endswith(pat)`. -/
def hasSuf (pat s : List Char) : Bool := hasPre pat.reverse s.reverse

/-- Python `str.count(pat)` for a non-empty pattern: number of
non-overlapping occurrences, scanning left to right. -/
def countSub (pat : List Char) (s : List Char) : Nat :=
  match s with
  | [] => 0
  | c :: rest =>
    if pat ≠ [] && hasPre pat (c :: rest) then
      1 + countSub pat (rest.drop (pat.length - 1))
    else
      countSub pat rest
termination_by s.length
decreasing_by
  · simp only [List.length_cons]
    have := List.length_drop (pat.length - 1) rest
    omega
  · simp [List.length_cons]

/-- Python `len(s.split())` : number of maximal runs of non-whitespace
characters. -/
def countWords (s : List Char) : Nat :=
  match s with
  | [] => 0
  | c :: rest =>
    if isPySpace c then countWords rest
    else 1 + countWords (rest.dropWhile (fun d => !isPySpace d))
termination_by s.length
decreasing_by
  · simp [List.length_cons]
  · simp only [List.length_cons]
    have := (List.dropWhile_suffix (l := rest) (fun d => !isPySpace d)).length_le
    omega

/-- Python `str.replace(pat, repl)` for a non-empty pattern: replace every
occurrence, scanning left to right. -/
def replaceAll (s pat repl : List Char) : List Char :=
  match s with
  | [] => []
  | c :: rest =>
    if pat ≠ [] && hasPre pat (c :: rest) then
      repl ++ replaceAll (rest.drop (pat.length - 1)) pat repl
    else
      c :: replaceAll rest pat repl
termination_by s.length
decreasing_by
  · simp only [List.length_cons]
    have := List.length_drop (pat.length - 1) rest
    omega
  · simp [List.length_cons]

/-- First-match lookup in an association list keyed by strings
(dictionary access / file lookup in the modeled filesystem). -/
def plookup {α : Type} : List (String × α) → String → Option α
  | [], _ => none
  | (k, v) :: rest, key => if k = key then some v else plookup rest key

/-! ## Path helpers (pathlib.Path semantics used by the sources) -/

/-- Final path component, the text after the last slash. -/
def lastComp (s : List Char) : List Char :=
  (s.reverse.takeWhile (fun c => c ≠ '/')).reverse

/-- Python `Path(s).suffix` : the final extension including the dot, empty
when the name has no interior dot. -/
def pathSuffix (s : String) : String :=
  let name := lastComp s.data
  match rfindSub ['.'] name with
  | some i => if 0 < i && i < name.length - 1 then ⟨name.drop i⟩ else ""
  | none => ""

/-- Python `Path(s).stem` : the final component without its extension. -/
def pathStem (s : String) : String :=
  let name := lastComp s.data
  match rfindSub ['.'] name with
  | some i => if 0 < i && i < name.length - 1 then ⟨name.take i⟩ else ⟨name⟩
  | none => ⟨name⟩

/-- Lowercase a whole string, `s.lower()`. -/
def lowerStr (s : String) : String := ⟨lowerL s.data⟩

/-! ## Markdown-fence stripping

Embedding of `VisionReplicator._clean_html_content` (vision_replicator.py
lines 132-158); `AIEditor._clean_html_content` (ai_editor.py lines 263-286)
is character-for-character the same code, so one definition covers both. -/

def fence : List Char := "```".data

def fenceHtml : List Char := "```html".data

def doctypeTag : List Char := "<!DOCTYPE".data

def htmlTag : List Char := "<html".data

/-- Fence-extraction step of `_clean_html_content`: pull the body out of a
```html code block, or out of a generic code block when the text also
contains an html tag. -/
def cleanStep1 (s : List Char) : List Char :=
  if containsSub fenceHtml s then
    match findSub fenceHtml s with
    | some p =>
      match findSub fence (s.drop (p + 7)) with
      | some e => pstrip (sliceL s (p + 7) (p + 7 + e))
      | none => s
    | none => s
  else if containsSub fence s && containsSub htmlTag s then
    match findSub fence s, rfindSub fence s with
    | some p, some e => pstrip (sliceL s (p + 3) e)
    | _, _ => s
  else s

/-- Document-start step of `_clean_html_content`: if the (stripped) text
does not already start with a document marker, cut from the first
occurrence of one, if any. -/
def cleanStep3 (s : List Char) : List Char :=
  if hasPre doctypeTag s || hasPre htmlTag s then s
  else
    match findSub doctypeTag s with
    | some i => s.drop i
    | none =>
      match findSub htmlTag s with
      | some i => s.drop i
      | none => s

/-- Full `_clean_html_content`: fence extraction, then `strip()`, then the
document-start cut. -/
def cleanHtmlContent (s : List Char) : List Char :=
  cleanStep3 (pstrip (cleanStep1 s))

/-! ## HTML validation

Embeddings of `AIEditor.validate_edited_html` (ai_editor.py lines 330-370)
and `VisionReplicator.validate_html` (vision_replicator.py lines 165-195). -/

/-- The four required structural tags checked by both validators. -/
def requiredTags : List (List Char) :=
  ["<!DOCTYPE".data, "<html".data, "<head".data, "<body".data]

/-- Required tags absent from the content (case-insensitive containment),
in checklist order. -/
def missingTags (s : List Char) : List (List Char) :=
  requiredTags.filter (fun t => !(containsSub (lowerL t) (lowerL s)))

/-- Styling detection shared by both validators:
"<style>" in content or "style=" in content. -/
def hasStyling (s : List Char) : Bool :=
  containsSub "<style>".data s || containsSub "style=".data s

/-- Result record of `AIEditor.validate_edited_html`. -/
structure EditValidation where
  valid : Bool
  issues : List (List Char)
  warnings : List (List Char)
  qualityScore : Int
deriving DecidableEq

/-- Embedding of `AIEditor.validate_edited_html`. -/
def validateEditedHtml (s : List Char) : EditValidation :=
  let issues := (missingTags s).map (fun t => "Missing ".data ++ t)
  let warnings :=
    (if s.length < 1000 then ["HTML content seems short".data] else [])
    ++ (if hasStyling s then [] else ["No CSS styling detected".data])
    ++ (if countSub "<h".data s < 2 then ["Few section headings found".data] else [])
  let score : Int := 100 - 15 * issues.length - 5 * warnings.length
    - (if s.length < 1000 then 10 else 0)
    - (if hasStyling s then 0 else 10)
    - (if countSub "<h".data s < 2 then 10 else 0)
  { valid := (missingTags s).isEmpty
    issues := issues
    warnings := warnings
    qualityScore := max 0 score }

/-- Result record of `VisionReplicator.validate_html` (the stats the claims
mention; `valid` is set to False exactly by the required-tag loop). -/
structure VisionValidation where
  valid : Bool
  issues : List (List Char)
  hasCss : Bool
  hasContent : Bool
  contentLength : Nat
  lineBreaks : Nat
  wordCount : Nat
deriving DecidableEq

/-- Embedding of `VisionReplicator.validate_html`. -/
def validateHtml (s : List Char) : VisionValidation :=
  let tagIssues := (missingTags s).map (fun t => "Missing ".data ++ t)
  let shortIssue := if s.length < 1000 then ["HTML content seems too short".data] else []
  let cssIssue := if hasStyling s then [] else ["No CSS styling detected".data]
  { valid := (missingTags s).isEmpty
    issues := tagIssues ++ shortIssue ++ cssIssue
    hasCss := hasStyling s
    hasContent := (pstrip s).length > 1000
    contentLength := s.length
    lineBreaks := countSub "\n".data s
    wordCount := countWords s }

/-! ## Template manager

Embedding of `TemplateManager` (template_manager.py).  The store is the
pair of the saved-templates directory (clean name ↦ stored html file
content) and the metadata mapping.  `created_date` (wall-clock timestamp) and
the regex `preview` record are omitted from the metadata entry: no claim
depends on them. -/

/-- Python regex word character for ASCII input (the sources only feed
ASCII template names; re.sub with \w is Unicode-aware in general). -/
def isWordChar (c : Char) : Bool := c.isAlpha || c.isDigit || c = '_'

/-- First regex pass of `_clean_template_name`: every character outside
word characters, hyphen and underscore becomes an underscore. -/
def subNonWord (s : List Char) : List Char :=
  s.map (fun c => if isWordChar c || c = '-' then c else '_')

/-- Second regex pass: collapse each run of underscores to a single one. -/
def collapseUnders : List Char → List Char
  | [] => []
  | [c] => [c]
  | a :: b :: rest =>
    if a = '_' && b = '_' then collapseUnders (b :: rest)
    else a :: collapseUnders (b :: rest)

/-- Python `str.strip('_')` : drop leading and trailing underscores. -/
def stripUnders (s : List Char) : List Char :=
  (dropEndWhile (fun c => c = '_') s).dropWhile (fun c => c = '_')

/-- Embedding of `TemplateManager._clean_template_name`. -/
def cleanTemplateName (s : List Char) : List Char :=
  stripUnders (collapseUnders (subNonWord (lowerL s)))

/-- String-level wrapper of `_clean_template_name`. -/
def cleanName (s : String) : String := ⟨cleanTemplateName s.data⟩

/-- Normalization exactly as the specification words it, for comparison
with `cleanTemplateName`: lowercase, replace every non-word character with
an underscore, collapse runs of underscores, strip outer underscores. -/
def specCleanTemplateName (s : List Char) : List Char :=
  stripUnders (collapseUnders ((lowerL s).map (fun c => if isWordChar c then c else '_')))

/-- Normalization as the correction words it: like the specification's
description but hyphens are kept, not replaced by underscores. -/
def amendedCleanTemplateName (s : List Char) : List Char :=
  stripUnders (collapseUnders ((lowerL s).map (fun c => if isWordChar c || c = '-' then c else '_')))

/-- Metadata entry written by `save_as_template` (timestamp and preview
omitted, see the section comment). -/
structure TemplateInfo where
  name : String
  filename : String
  description : String
  originalFile : String
  fileSize : Nat
deriving DecidableEq

/-- The template store: stored html files keyed by clean name, plus the
metadata mapping persisted to the JSON sidecar. -/
structure TemplateStore where
  files : List (String × List Char)
  metadata : List (String × TemplateInfo)
deriving DecidableEq

inductive TmplErr
  | fileNotFound
  | fileExists
deriving DecidableEq

def savedTemplatesDir : String := "templates/saved_templates"

/-- Embedding of `TemplateManager.save_as_template`. `srcFs` is the
filesystem holding the source html file; the pair result carries the
possibly-updated store so that failure paths visibly leave it unchanged. -/
def saveAsTemplate (srcFs : List (String × List Char)) (store : TemplateStore)
    (htmlFile templateName description : String) :
    Except TmplErr String × TemplateStore :=
  match plookup srcFs htmlFile with
  | none => (.error .fileNotFound, store)
  | some content =>
    let clean := cleanName templateName
    if (plookup store.files clean).isSome then
      (.error .fileExists, store)
    else
      let info : TemplateInfo :=
        { name := templateName
          filename := clean ++ ".html"
          description := description
          originalFile := htmlFile
          fileSize := content.length }
      (.ok (savedTemplatesDir ++ "/" ++ clean ++ ".html"),
        { files := (clean, content) :: store.files
          metadata := (clean, info) :: store.metadata })

/-- Embedding of `TemplateManager.load_template`. -/
def loadTemplate (store : TemplateStore) (templateName : String) :
    Except TmplErr (List Char) :=
  match plookup store.files (cleanName templateName) with
  | none => .error .fileNotFound
  | some content => .ok content

/-- Embedding of `TemplateManager.delete_template`. -/
def deleteTemplate (store : TemplateStore) (templateName : String) :
    Except TmplErr Bool × TemplateStore :=
  let clean := cleanName templateName
  match plookup store.files clean with
  | none => (.error .fileNotFound, store)
  | some _ =>
    (.ok true,
      { files := store.files.filter (fun kv => kv.1 ≠ clean)
        metadata := store.metadata.filter (fun kv => kv.1 ≠ clean) })

/-! ## PDF exporter

Embedding of `PDFExporter` (pdf_exporter.py).  The optional imports tried
by `__init__` are the two booleans of the structure (WeasyPrint is only
probed when pyppeteer is absent, but the fallback code tests
`self.weasyprint` again, so the flag is kept separately).  The outcomes of
the external renderers are given by a `RenderOracle`: `some n` means the
backend wrote a PDF of `n` bytes, `none` that it raised.  The modeled
filesystem holds the text files the exporter itself writes; the PDF bytes
written by a renderer are not part of it, only their size matters to the
validation check. -/

structure PDFExporter where
  pyppeteerLoaded : Bool
  weasyprintLoaded : Bool
deriving DecidableEq

/-- Backend selected by `__init__` in fixed preference order. -/
def PDFExporter.backend (e : PDFExporter) : String :=
  if e.pyppeteerLoaded then "pyppeteer"
  else if e.weasyprintLoaded then "weasyprint"
  else "browser"

/-- Outcome of the external renderers (third-party code). -/
structure RenderOracle where
  pyppeteerPdfSize : Option Nat
  weasyprintPdfSize : Option Nat
deriving DecidableEq

/-- Style configuration dictionary entry of `_optimize_for_pdf`. -/
structure StyleConfig where
  margin : String
  fontSize : String
  lineHeight : String
deriving DecidableEq

/-- The `style_configs` dictionary of `_optimize_for_pdf`. -/
def styleConfigs : List (String × StyleConfig) :=
  [("professional", ⟨"0.75in", "11pt", "1.4"⟩),
   ("compact", ⟨"0.5in", "10pt", "1.3"⟩),
   ("detailed", ⟨"1in", "12pt", "1.5"⟩)]

/-- Python `style_configs.get(style, style_configs["professional"])`. -/
def getStyleConfig (style : String) : StyleConfig :=
  (plookup styleConfigs style).getD ⟨"0.75in", "11pt", "1.4"⟩

/-! CSS template of `_optimize_for_pdf`, split around the three
interpolated configuration values (literal braces written as hex
escapes). -/

def cssA : String := "\n<style>\n/* PDF Print Optimization */\n@page \x7b\n    size: A4;\n    "

def cssB : String := "\n\x7d\n\n* \x7b\n    -webkit-print-color-adjust: exact !important;\n    color-adjust: exact !important;\n    print-color-adjust: exact !important;\n\x7d\n\nbody \x7b\n    font-family: -apple-system, BlinkMacSystemFont, \x27Segoe UI\x27, Arial, sans-serif;\n    "

def cssC : String := "\n    "

def cssD : String := "\n    color: #333;\n    background: white;\n    margin: 0;\n    padding: 0;\n\x7d\n\n/* Remove web-specific elements for print */\n@media print \x7b\n    nav, .no-print \x7b\n    display: none !important;\n\x7d\n\n    body \x7b\n        "

def cssE : String := "\n    \x7d\n    \n    h1, h2, h3 \x7b\n        page-break-after: avoid;\n    \x7d\n    \n    .page-break \x7b\n        page-break-before: always;\n    \x7d\n\x7d\n\n/* Ensure text is selectable and crisp */\n* \x7b\n    -webkit-font-smoothing: antialiased;\n    -moz-osx-font-smoothing: grayscale;\n\x7d\n</style>\n"

/-- The `pdf_css` block of `_optimize_for_pdf` for a configuration. -/
def pdfCss (c : StyleConfig) : List Char :=
  cssA.data ++ ("margin: ".data ++ c.margin.data ++ ";".data)
  ++ cssB.data ++ ("font-size: ".data ++ c.fontSize.data ++ ";".data)
  ++ cssC.data ++ ("line-height: ".data ++ c.lineHeight.data ++ ";".data)
  ++ cssD.data ++ ("font-size: ".data ++ c.fontSize.data ++ " !important;".data)
  ++ cssE.data

/-- Embedding of `PDFExporter._optimize_for_pdf`: inject the style CSS
before the closing head tag, else before the body tag, else at the very
beginning. -/
def optimizeForPdf (html : List Char) (style : String) : List Char :=
  let css := pdfCss (getStyleConfig style)
  if containsSub "</head>".data html then
    replaceAll html "</head>".data (css ++ "</head>".data)
  else if containsSub "<body>".data html then
    replaceAll html "<body>".data (css ++ "<body>".data)
  else css ++ html

/-- Text-file filesystem written by the exporter. -/
abbrev StrFS := List (String × List Char)

def fsWrite (fs : StrFS) (p : String) (c : List Char) : StrFS := (p, c) :: fs

def fsRemove (fs : StrFS) (p : String) : StrFS :=
  fs.filter (fun kv => kv.1 ≠ p)

def pdfOutputDir : String := "output/pdf"

/-! Pieces of the manual-instructions message of `_generate_with_browser`,
split around the interpolated paths. -/

def instrA : String := "\n✅ HTML ready for PDF conversion!\n\n📁 Print-optimized HTML saved: "

def instrB : String := "\n\n🖨️ BROWSER METHOD (Simple & Reliable):\n1. Open file in browser: "

def instrC : String := "\n2. Press Cmd+P (Mac) or Ctrl+P (Windows)\n3. Choose \"Save as PDF\"\n4. Select \"More settings\" → \"Margins: None\"\n5. Save as: "

def instrD : String := "\n\n💡 This method gives you perfect control over the final PDF appearance!\n\n🎯 File ready: "

/-- The manual-instructions string returned by `_generate_with_browser`. -/
def browserInstructions (tempHtml outputPath : String) : List Char :=
  instrA.data ++ tempHtml.data ++ instrB.data ++ tempHtml.data
  ++ instrC.data ++ outputPath.data ++ instrD.data ++ tempHtml.data ++ "\n".data

/-- Embedding of `PDFExporter._generate_with_browser`: write the
print-optimized HTML next to the intended PDF and return the manual
instructions. -/
def generateWithBrowser (html : List Char) (outputPath : String)
    (style : String) (fs : StrFS) : List Char × StrFS :=
  let optimized := optimizeForPdf html style
  let tempHtml := pdfOutputDir ++ "/" ++ pathStem outputPath ++ "_print.html"
  (browserInstructions tempHtml outputPath, fsWrite fs tempHtml optimized)

/-- Embedding of `PDFExporter._generate_with_weasyprint`: on a rendering
error or a too-small output file, fall back to the browser method. -/
def generateWithWeasyprint (oracle : RenderOracle) (html : List Char)
    (outputPath : String) (style : String) (fs : StrFS) : List Char × StrFS :=
  match oracle.weasyprintPdfSize with
  | some n =>
    if n < 1000 then generateWithBrowser html outputPath style fs
    else (outputPath.data, fs)
  | none => generateWithBrowser html outputPath style fs

/-- Embedding of `PDFExporter._generate_with_pyppeteer`: write a temporary
HTML file, render it, unlink the temporary on success of the async call,
validate the PDF size, and fall back (to WeasyPrint when loaded, else the
browser method) on any failure.  When the async call raises, the except
branch runs before the unlink, so the temporary file stays. -/
def generateWithPyppeteer (e : PDFExporter) (oracle : RenderOracle)
    (html : List Char) (outputPath : String) (style : String) (fs : StrFS) :
    List Char × StrFS :=
  let optimized := optimizeForPdf html style
  let tempHtml := pdfOutputDir ++ "/" ++ pathStem outputPath ++ "_temp.html"
  let fs1 := fsWrite fs tempHtml optimized
  match oracle.pyppeteerPdfSize with
  | none =>
    if e.weasyprintLoaded then generateWithWeasyprint oracle html outputPath style fs1
    else generateWithBrowser html outputPath style fs1
  | some n =>
    let fs2 := fsRemove fs1 tempHtml
    if n < 1000 then
      if e.weasyprintLoaded then generateWithWeasyprint oracle html outputPath style fs2
      else generateWithBrowser html outputPath style fs2
    else (outputPath.data, fs2)

/-- Embedding of `PDFExporter.convert_html_to_pdf`: load the HTML (file
content when the argument names an existing .html file, else the argument
itself is the markup), pick the output name, and dispatch on the backend.
The returned string is either the PDF path or the manual instructions. -/
def convertHtmlToPdf (e : PDFExporter) (oracle : RenderOracle) (fs : StrFS)
    (htmlPath : String) (outputName : Option String) (style : String) :
    List Char × StrFS :=
  let fileCase := hasSuf ".html".data htmlPath.data && (plookup fs htmlPath).isSome
  let htmlContent := if fileCase then (plookup fs htmlPath).getD [] else htmlPath.data
  let baseName := if fileCase then pathStem htmlPath else "resume"
  let outName :=
    match outputName with
    | none => baseName ++ "_" ++ style
    | some s => if s = "" then baseName ++ "_" ++ style else s
  let outputPath := pdfOutputDir ++ "/" ++ outName ++ ".pdf"
  if e.backend = "pyppeteer" then
    generateWithPyppeteer e oracle htmlContent outputPath style fs
  else if e.backend = "weasyprint" then
    generateWithWeasyprint oracle htmlContent outputPath style fs
  else
    generateWithBrowser htmlContent outputPath style fs

/-! ## Document converter

Embedding of `DocumentConverter` (document_converter.py).  An input file is
one of: a PDF whose pages render (through PyMuPDF at 300 DPI) to pixmaps of
the recorded dimensions; a plain image of recorded dimensions; or an office
document whose LibreOffice conversion either yields such a PDF or fails
(`none` covers a non-zero exit, a timeout, and a missing output file — all
raise).  Contrast enhancement and color-mode conversion do not change
dimensions and are not modeled. -/

inductive DocFile
  | pdf (pages : List (Nat × Nat))
  | img (w h : Nat)
  | office (conv : Option (List (Nat × Nat)))
deriving DecidableEq

inductive ConvErr
  | fileNotFound
  | zeroPages
  | openFailed
  | toolFailed
deriving DecidableEq

/-- The `max_size` bound of `_optimize_and_save`. -/
def maxImgSize : Nat := 2048

/-- Modelled from PIL's documented contract of `Image.thumbnail((m, m))`:
scale the image down, keeping the aspect ratio, so that it is no larger
than m×m (integer arithmetic stands in for PIL's float rounding, which
also never exceeds the requested box). -/
def thumbnailDims (w h m : Nat) : Nat × Nat :=
  (w * m / max w h, h * m / max w h)

/-- Dimension effect of `DocumentConverter._optimize_and_save`: downscale
only when the longest side exceeds `maxImgSize`. -/
def optimizeDims (w h : Nat) : Nat × Nat :=
  if max w h > maxImgSize then thumbnailDims w h maxImgSize else (w, h)

def screenshotsDir : String := "output/screenshots"

/-- Embedding of `DocumentConverter._pdf_to_screenshot`: a zero-page PDF is
a validation error; otherwise render the first page and optimize.  The
result carries the output path and the saved image dimensions. -/
def pdfToScreenshot (pages : List (Nat × Nat)) (outPath : String) :
    Except ConvErr (String × Nat × Nat) :=
  match pages with
  | [] => .error .zeroPages
  | (w, h) :: _ =>
    let d := optimizeDims w h
    .ok (outPath, d.1, d.2)

/-- Embedding of `_docx_to_screenshot` / `_libreoffice_to_screenshot`:
convert through LibreOffice to a temporary PDF, then rasterize it. -/
def officeToScreenshot (doc : DocFile) (outPath : String) :
    Except ConvErr (String × Nat × Nat) :=
  match doc with
  | .office (some pages) => pdfToScreenshot pages outPath
  | _ => .error .toolFailed

/-- Image extensions routed to `_image_to_screenshot`. -/
def imageExts : List String := [".png", ".jpg", ".jpeg", ".bmp", ".tiff"]

/-- Embedding of `DocumentConverter.convert_to_screenshot`: check
existence, derive the output name, and route on the lowercased
extension. -/
def convertToScreenshot (fs : List (String × DocFile)) (filePath : String)
    (outputName : Option String) : Except ConvErr (String × Nat × Nat) :=
  match plookup fs filePath with
  | none => .error .fileNotFound
  | some doc =>
    let outName :=
      match outputName with
      | none => pathStem filePath ++ "_screenshot"
      | some s => if s = "" then pathStem filePath ++ "_screenshot" else s
    let outPath := screenshotsDir ++ "/" ++ outName ++ ".png"
    let ext := lowerStr (pathSuffix filePath)
    if ext = ".pdf" then
      match doc with
      | .pdf pages => pdfToScreenshot pages outPath
      | _ => .error .openFailed
    else if ext = ".docx" || ext = ".doc" then
      officeToScreenshot doc outPath
    else if ext ∈ imageExts then
      match doc with
      | .img w h =>
        let d := optimizeDims w h
        .ok (outPath, d.1, d.2)
      | _ => .error .openFailed
    else
      officeToScreenshot doc outPath

/-! ## Basic lemmas about the modeled string operations -/

theorem hasPre_iff (p s : List Char) : hasPre p s = true ↔ ∃ t, s = p ++ t := by
  induction p generalizing s with
  | nil => simp [hasPre]
  | cons a as ih =>
    cases s with
    | nil => simp [hasPre]
    | cons b bs =>
      simp only [hasPre, Bool.and_eq_true, decide_eq_true_eq, ih, List.cons_append]
      constructor
      · rintro ⟨rfl, t, rfl⟩; exact ⟨t, rfl⟩
      · rintro ⟨t, ht⟩
        injection ht with h1 h2
        exact ⟨h1.symm, t, h2⟩

theorem hasPre_self_append (p t : List Char) : hasPre p (p ++ t) = true :=
  (hasPre_iff p (p ++ t)).mpr ⟨t, rfl⟩

theorem findSub_of_hasPre {pat s : List Char} (h : hasPre pat s = true) :
    findSub pat s = some 0 := by
  cases s <;> simp [findSub, h]

theorem findSub_drop {pat : List Char} :
    ∀ {s : List Char} {i : Nat}, findSub pat s = some i →
      hasPre pat (s.drop i) = true := by
  intro s
  induction s with
  | nil =>
    intro i h
    by_cases hp : hasPre pat [] = true
    · simp only [findSub, if_pos hp, Option.some.injEq] at h
      subst h; simpa using hp
    · simp only [findSub, if_neg hp] at h
      exact absurd h (by simp)
  | cons c rest ih =>
    intro i h
    by_cases hp : hasPre pat (c :: rest) = true
    · simp only [findSub, if_pos hp, Option.some.injEq] at h
      subst h; simpa using hp
    · simp only [findSub, if_neg hp, Option.map_eq_some'] at h
      obtain ⟨j, hj, rfl⟩ := h
      simpa using ih hj

theorem containsSub_occ {pat s : List Char} (h : containsSub pat s = true) :
    ∃ u v, s = u ++ pat ++ v := by
  obtain ⟨i, hi⟩ := Option.isSome_iff_exists.mp h
  obtain ⟨t, ht⟩ := (hasPre_iff _ _).mp (findSub_drop hi)
  refine ⟨s.take i, t, ?_⟩
  rw [List.append_assoc, ← ht]
  exact (List.take_append_drop i s).symm

theorem occ_containsSub (pat : List Char) :
    ∀ (u v : List Char), containsSub pat (u ++ pat ++ v) = true := by
  intro u
  induction u with
  | nil =>
    intro v
    simp only [containsSub, List.nil_append]
    rw [findSub_of_hasPre (hasPre_self_append pat v)]
    rfl
  | cons c u ih =>
    intro v
    simp only [containsSub] at ih ⊢
    by_cases hp : hasPre pat ((c :: u) ++ pat ++ v) = true
    · rw [show ((c :: u) ++ pat ++ v) = c :: (u ++ pat ++ v) by simp] at hp ⊢
      rw [show findSub pat (c :: (u ++ pat ++ v)) = some 0 from findSub_of_hasPre hp]
      rfl
    · rw [show ((c :: u) ++ pat ++ v) = c :: (u ++ pat ++ v) by simp] at hp ⊢
      simp only [findSub, if_neg hp]
      have := ih v
      cases hfs : findSub pat (u ++ pat ++ v) with
      | none => rw [hfs] at this; exact absurd this (by simp)
      | some j => simp [hfs]

theorem containsSub_trans_of_pre {p q s : List Char} (hpq : ∃ r, q = p ++ r)
    (h : containsSub q s = true) : containsSub p s = true := by
  obtain ⟨u, v, rfl⟩ := containsSub_occ h
  obtain ⟨r, rfl⟩ := hpq
  have : u ++ (p ++ r) ++ v = u ++ p ++ (r ++ v) := by simp
  rw [this]
  exact occ_containsSub p u (r ++ v)

/-! Lemmas about the strip helpers. -/

theorem dropEndWhile_take (u : Char → Bool) :
    ∀ l : List Char, ∃ j, dropEndWhile u l = l.take j := by
  intro l
  induction l with
  | nil => exact ⟨0, rfl⟩
  | cons c rest ih =>
    obtain ⟨j, hj⟩ := ih
    by_cases hc : (dropEndWhile u rest = [] && u c) = true
    · exact ⟨0, by simp only [dropEndWhile, if_pos hc]; rfl⟩
    · refine ⟨j + 1, ?_⟩
      rw [List.take_succ_cons, ← hj]
      simp only [dropEndWhile, if_neg hc]

theorem dropEndWhile_last (u : Char → Bool) :
    ∀ {l p : List Char} {c : Char}, dropEndWhile u l = p ++ [c] → u c = false := by
  intro l
  induction l with
  | nil =>
    intro p c h
    exact absurd h (by simp [dropEndWhile])
  | cons a rest ih =>
    intro p c h
    by_cases hc : (dropEndWhile u rest = [] && u a) = true
    · simp only [dropEndWhile, if_pos hc] at h
      exact absurd h (by simp)
    · simp only [dropEndWhile, if_neg hc] at h
      cases p with
      | nil =>
        simp only [List.nil_append, List.cons.injEq] at h
        obtain ⟨rfl, hr⟩ := h
        simp [hr] at hc
        exact hc
      | cons x p' =>
        simp only [List.cons_append, List.cons.injEq] at h
        exact ih h.2

theorem dropEndWhile_eq_self {u : Char → Bool} :
    ∀ {l : List Char}, (∀ p c, l = p ++ [c] → u c = false) →
      dropEndWhile u l = l := by
  intro l
  induction l with
  | nil => intro _; rfl
  | cons a rest ih =>
    intro h
    have hrest : ∀ p c, rest = p ++ [c] → u c = false := by
      intro p c hp
      exact h (a :: p) c (by rw [hp]; rfl)
    have hr : dropEndWhile u rest = rest := ih hrest
    by_cases hcase : rest = []
    · subst hcase
      have ha : u a = false := h [] a (by simp)
      simp [dropEndWhile, ha]
    · have hcond : ¬ ((decide (dropEndWhile u rest = []) && u a) = true) := by
        rw [hr]
        simp [hcase]
      simp only [dropEndWhile]
      rw [if_neg hcond, hr]

theorem dropEndWhile_idem (u : Char → Bool) (l : List Char) :
    dropEndWhile u (dropEndWhile u l) = dropEndWhile u l :=
  dropEndWhile_eq_self (fun _ _ h => dropEndWhile_last u h)

theorem dropEndWhile_stable_drop {u : Char → Bool} {l : List Char}
    (h : dropEndWhile u l = l) (i : Nat) :
    dropEndWhile u (l.drop i) = l.drop i := by
  refine dropEndWhile_eq_self ?_
  intro p c hp
  refine dropEndWhile_last u (l := l) (p := l.take i ++ p) ?_
  rw [h]
  conv_lhs => rw [← List.take_append_drop i l]
  rw [hp]
  simp

theorem dropWhile_eq_drop (u : Char → Bool) (l : List Char) :
    ∃ k, l.dropWhile u = l.drop k := by
  induction l with
  | nil => exact ⟨0, rfl⟩
  | cons c rest ih =>
    obtain ⟨k, hk⟩ := ih
    by_cases hc : u c = true
    · exact ⟨k + 1, by simp [List.dropWhile_cons, hc, hk]⟩
    · exact ⟨0, by simp [List.dropWhile_cons, hc]⟩

theorem dropWhile_head {u : Char → Bool} :
    ∀ {l t : List Char} {c : Char}, l.dropWhile u = c :: t → u c = false := by
  intro l
  induction l with
  | nil => intro t c h; exact absurd h (by simp)
  | cons a rest ih =>
    intro t c h
    by_cases ha : u a = true
    · rw [List.dropWhile_cons, if_pos ha] at h
      exact ih h
    · rw [List.dropWhile_cons, if_neg ha] at h
      injection h with h1 _
      rw [← h1]
      simpa using ha

theorem dropWhile_idem (u : Char → Bool) (l : List Char) :
    (l.dropWhile u).dropWhile u = l.dropWhile u := by
  cases hl : l.dropWhile u with
  | nil => rfl
  | cons c t =>
    rw [List.dropWhile_cons, if_neg (by simp [dropWhile_head hl])]

theorem stripR_idem (l : List Char) : stripR (stripR l) = stripR l :=
  dropEndWhile_idem isPySpace l

theorem stripR_stable_drop {l : List Char} (h : stripR l = l) (i : Nat) :
    stripR (l.drop i) = l.drop i :=
  dropEndWhile_stable_drop h i

theorem stripR_pstrip (s : List Char) : stripR (pstrip s) = pstrip s := by
  obtain ⟨k, hk⟩ := dropWhile_eq_drop isPySpace (stripR s)
  show stripR (stripL (stripR s)) = stripL (stripR s)
  rw [show stripL (stripR s) = (stripR s).dropWhile isPySpace from rfl, hk]
  exact stripR_stable_drop (stripR_idem s) k

theorem pstrip_stable_of_drop {x : List Char} (i : Nat)
    (hhead : ∀ c t, (pstrip x).drop i = c :: t → isPySpace c = false) :
    pstrip ((pstrip x).drop i) = (pstrip x).drop i := by
  have hR : stripR ((pstrip x).drop i) = (pstrip x).drop i :=
    stripR_stable_drop (stripR_pstrip x) i
  show stripL (stripR ((pstrip x).drop i)) = (pstrip x).drop i
  rw [hR]
  cases hd : (pstrip x).drop i with
  | nil => rfl
  | cons c t =>
    show (c :: t).dropWhile isPySpace = c :: t
    rw [List.dropWhile_cons, if_neg (by simp [hhead c t hd])]

theorem pstrip_idem (s : List Char) : pstrip (pstrip s) = pstrip s := by
  have := pstrip_stable_of_drop (x := s) 0
  simpa using this (fun c t h => dropWhile_head (u := isPySpace) (by simpa using h))

/-! ## Lemmas about `_clean_html_content` -/

theorem cleanStep3_shape (s : List Char) :
    (cleanStep3 s = s ∧ ((hasPre doctypeTag s || hasPre htmlTag s) = true
        ∨ (findSub doctypeTag s = none ∧ findSub htmlTag s = none)))
    ∨ ∃ i, cleanStep3 s = s.drop i
        ∧ (hasPre doctypeTag (s.drop i) = true ∨ hasPre htmlTag (s.drop i) = true) := by
  by_cases h1 : (hasPre doctypeTag s || hasPre htmlTag s) = true
  · exact .inl ⟨by rw [cleanStep3, if_pos h1], .inl h1⟩
  · cases hd : findSub doctypeTag s with
    | some i =>
      refine .inr ⟨i, ?_, .inl (findSub_drop hd)⟩
      rw [cleanStep3, if_neg h1, hd]
    | none =>
      cases hh : findSub htmlTag s with
      | some i =>
        refine .inr ⟨i, ?_, .inr (findSub_drop hh)⟩
        rw [cleanStep3, if_neg h1, hd, hh]
      | none =>
        refine .inl ⟨?_, .inr ⟨rfl, rfl⟩⟩
        rw [cleanStep3, if_neg h1, hd, hh]

theorem cleanStep3_stable (s : List Char) :
    cleanStep3 (cleanStep3 s) = cleanStep3 s := by
  rcases cleanStep3_shape s with ⟨he, hc⟩ | ⟨i, he, hc⟩
  · rw [he]
    rcases hc with h1 | ⟨hd, hh⟩
    · rw [cleanStep3, if_pos h1]
    · have hn : ¬ ((hasPre doctypeTag s || hasPre htmlTag s) = true) := by
        intro hcon
        have hcon2 : hasPre doctypeTag s = true ∨ hasPre htmlTag s = true := by
          simpa using hcon
        rcases hcon2 with hx | hx
        · rw [findSub_of_hasPre hx] at hd; exact absurd hd (by simp)
        · rw [findSub_of_hasPre hx] at hh; exact absurd hh (by simp)
      rw [cleanStep3, if_neg hn, hd, hh]
  · rw [he]
    have hp : (hasPre doctypeTag (s.drop i) || hasPre htmlTag (s.drop i)) = true := by
      rcases hc with h | h <;> simp [h]
    rw [cleanStep3, if_pos hp]

theorem cleanStep1_id_of_no_fence {t : List Char}
    (h : containsSub fence t = false) : cleanStep1 t = t := by
  have hfh : ¬ (containsSub fenceHtml t = true) := by
    intro hcon
    have : containsSub fence t = true :=
      containsSub_trans_of_pre ⟨"html".data, by decide⟩ hcon
    rw [h] at this
    exact absurd this (by simp)
  have hff : ¬ ((containsSub fence t && containsSub htmlTag t) = true) := by
    simp [h]
  rw [cleanStep1, if_neg hfh, if_neg hff]

/-- Heads of the document-start markers are not whitespace, so a text cut
at such a marker is strip-stable. -/
theorem pstrip_stable_of_marker {x : List Char} (i : Nat)
    (hc : hasPre doctypeTag ((pstrip x).drop i) = true
        ∨ hasPre htmlTag ((pstrip x).drop i) = true) :
    pstrip ((pstrip x).drop i) = (pstrip x).drop i := by
  refine pstrip_stable_of_drop i ?_
  intro c t hct
  rcases hc with h | h
  all_goals
    obtain ⟨q, hq⟩ := (hasPre_iff _ _).mp h
    rw [hct] at hq
    injection hq with h1 _
    rw [h1]
    decide

/-- C4, counterexample: `_clean_html_content` is not idempotent.  On the
input consisting of a generic code block whose extracted body still holds a
fence and an html tag, the first application yields a string that the
second application cuts down further. -/
theorem c4_core_counterexample :
    cleanHtmlContent (cleanHtmlContent "```<html ```a``` ```".data)
      ≠ cleanHtmlContent "```<html ```a``` ```".data := by decide

/-- C4, amended: `_clean_html_content` is idempotent on every input whose
cleaned result contains no markdown fence (in particular on every properly
fenced assistant reply, whose extracted body is fence-free). -/
theorem c4_clean_html_idempotent_amended (s : List Char)
    (h : containsSub fence (cleanHtmlContent s) = false) :
    cleanHtmlContent (cleanHtmlContent s) = cleanHtmlContent s := by
  have key : ∀ t : List Char, cleanStep1 t = t → pstrip t = t → cleanStep3 t = t →
      cleanHtmlContent t = t := by
    intro t h1 h2 h3
    show cleanStep3 (pstrip (cleanStep1 t)) = t
    rw [h1, h2, h3]
  refine key _ (cleanStep1_id_of_no_fence h) ?_ ?_
  · show pstrip (cleanStep3 (pstrip (cleanStep1 s))) = cleanStep3 (pstrip (cleanStep1 s))
    rcases cleanStep3_shape (pstrip (cleanStep1 s)) with ⟨he, _⟩ | ⟨i, he, hc⟩
    · rw [he]
      exact pstrip_idem _
    · rw [he]
      exact pstrip_stable_of_marker i hc
  · show cleanStep3 (cleanStep3 (pstrip (cleanStep1 s))) = cleanStep3 (pstrip (cleanStep1 s))
    exact cleanStep3_stable _

set_option maxRecDepth 8000 in
/-- C4, witness: a typical fenced assistant reply satisfies the amended
hypothesis, and cleaning it twice equals cleaning it once. -/
theorem c4_clean_html_idempotent_amended_witness :
    containsSub fence
        (cleanHtmlContent "Sure! ```html\n<html><body>hi</body></html>\n``` done".data)
      = false
    ∧ cleanHtmlContent
        (cleanHtmlContent "Sure! ```html\n<html><body>hi</body></html>\n``` done".data)
      = cleanHtmlContent "Sure! ```html\n<html><body>hi</body></html>\n``` done".data :=
  ⟨by decide, c4_clean_html_idempotent_amended _ (by decide)⟩

/-! ## Lemmas about `_clean_template_name` -/

theorem collapseUnders_mem : ∀ {l : List Char} {c : Char},
    c ∈ collapseUnders l → c ∈ l := by
  intro l
  induction l with
  | nil => intro c h; exact absurd h (by simp [collapseUnders])
  | cons a tail ih =>
    intro c h
    cases htail : tail with
    | nil =>
      subst htail
      simpa [collapseUnders] using h
    | cons b rest =>
      subst htail
      by_cases hab : (a = '_' && b = '_') = true
      · rw [collapseUnders, if_pos hab] at h
        exact .tail a (ih h)
      · rw [collapseUnders, if_neg hab] at h
        rcases List.mem_cons.mp h with rfl | h2
        · exact .head _
        · exact .tail a (ih h2)

theorem stripUnders_mem {l : List Char} {c : Char}
    (h : c ∈ stripUnders l) : c ∈ l := by
  obtain ⟨j, hj⟩ := dropEndWhile_take (fun c => c = '_') l
  obtain ⟨k, hk⟩ :=
    dropWhile_eq_drop (fun c => c = '_') (dropEndWhile (fun c => c = '_') l)
  rw [stripUnders, hk, hj] at h
  exact (List.take_sublist j l).subset ((List.drop_sublist k _).subset h)

theorem collapseUnders_head : ∀ (xs : List Char) (x : Char),
    (collapseUnders (x :: xs)).head? = some x := by
  intro xs
  induction xs with
  | nil => intro x; rfl
  | cons y r ih =>
    intro x
    by_cases hxy : (x = '_' && y = '_') = true
    · rw [collapseUnders, if_pos hxy, ih y]
      simp only [Bool.and_eq_true, decide_eq_true_eq] at hxy
      rw [hxy.1, hxy.2]
    · rw [collapseUnders, if_neg hxy]
      rfl

theorem collapseUnders_noDD : ∀ (l p q : List Char),
    collapseUnders l ≠ p ++ '_' :: '_' :: q := by
  intro l
  induction l with
  | nil =>
    intro p q h
    have := congrArg List.length h
    simp [collapseUnders] at this
    omega
  | cons a tail ih =>
    intro p q h
    cases htail : tail with
    | nil =>
      subst htail
      have := congrArg List.length h
      simp [collapseUnders] at this
      omega
    | cons b rest =>
      subst htail
      by_cases hab : (a = '_' && b = '_') = true
      · rw [collapseUnders, if_pos hab] at h
        exact ih p q h
      · rw [collapseUnders, if_neg hab] at h
        cases p with
        | nil =>
          simp only [List.nil_append, List.cons.injEq] at h
          obtain ⟨rfl, h2⟩ := h
          have hb : (collapseUnders (b :: rest)).head? = some b :=
            collapseUnders_head rest b
          rw [h2] at hb
          simp only [List.head?_cons, Option.some.injEq] at hb
          exact hab (by simp [hb.symm])
        | cons x p' =>
          simp only [List.cons_append, List.cons.injEq] at h
          exact ih p' q h.2

theorem cleanTemplateName_noDD (s : List Char) :
    containsSub "__".data (cleanTemplateName s) = false := by
  cases hb : containsSub "__".data (cleanTemplateName s) with
  | false => rfl
  | true =>
    exfalso
    obtain ⟨u, v, huv⟩ := containsSub_occ hb
    have hdd : ("__".data : List Char) = ['_', '_'] := rfl
    rw [hdd] at huv
    set m := collapseUnders (subNonWord (lowerL s)) with hm
    obtain ⟨j, hj⟩ := dropEndWhile_take (fun c => c = '_') m
    obtain ⟨k, hk⟩ :=
      dropWhile_eq_drop (fun c => c = '_') (dropEndWhile (fun c => c = '_') m)
    have hclean : cleanTemplateName s = (m.take j).drop k := by
      show stripUnders m = _
      rw [stripUnders, hk, hj]
    rw [hclean] at huv
    apply collapseUnders_noDD (subNonWord (lowerL s)) ((m.take j).take k ++ u) (v ++ m.drop j)
    rw [← hm]
    calc m = m.take j ++ m.drop j := (List.take_append_drop j m).symm
      _ = ((m.take j).take k ++ (m.take j).drop k) ++ m.drop j := by
          rw [List.take_append_drop k (m.take j)]
      _ = ((m.take j).take k ++ (u ++ ['_', '_'] ++ v)) ++ m.drop j := by rw [← huv]
      _ = ((m.take j).take k ++ u) ++ '_' :: '_' :: (v ++ m.drop j) := by
          simp [List.append_assoc]

theorem cleanTemplateName_no_lead (s : List Char) :
    hasPre "_".data (cleanTemplateName s) = false := by
  cases hres : cleanTemplateName s with
  | nil => rfl
  | cons c t =>
    have h3 : (collapseUnders (subNonWord (lowerL s))
        |> dropEndWhile (fun c => decide (c = '_'))
        |> List.dropWhile (fun c => decide (c = '_'))) = c :: t := hres
    have hc := dropWhile_head h3
    simp only [decide_eq_false_iff_not] at hc
    have hne : ('_' : Char) ≠ c := fun h => hc h.symm
    show hasPre ['_'] (c :: t) = false
    simp [hasPre, hne]

theorem cleanTemplateName_no_trail (s : List Char) :
    hasSuf "_".data (cleanTemplateName s) = false := by
  set m := collapseUnders (subNonWord (lowerL s)) with hm
  obtain ⟨k, hk⟩ :=
    dropWhile_eq_drop (fun c => c = '_') (dropEndWhile (fun c => c = '_') m)
  have hclean : cleanTemplateName s = (dropEndWhile (fun c => c = '_') m).drop k := by
    show stripUnders m = _
    rw [stripUnders, hk]
  show hasPre "_".data.reverse (cleanTemplateName s).reverse = false
  cases hrev : (cleanTemplateName s).reverse with
  | nil => rfl
  | cons c t =>
    have hr : cleanTemplateName s = t.reverse ++ [c] := by
      have h2 := congrArg List.reverse hrev
      simpa using h2
    have hwsplit : dropEndWhile (fun c => c = '_') m
        = ((dropEndWhile (fun c => c = '_') m).take k ++ t.reverse) ++ [c] := by
      conv_lhs => rw [← List.take_append_drop k (dropEndWhile (fun c => c = '_') m)]
      rw [← hclean, hr, List.append_assoc]
    have hlast := dropEndWhile_last (fun c => c = '_') hwsplit
    simp only [decide_eq_false_iff_not] at hlast
    have hne : ('_' : Char) ≠ c := fun h => hlast h.symm
    show hasPre ['_'] (c :: t) = false
    simp [hasPre, hne]

theorem cleanTemplateName_alphabet (s : List Char) :
    ∀ c ∈ cleanTemplateName s, (isWordChar c || c = '-') = true := by
  intro c hc
  have h1 : c ∈ collapseUnders (subNonWord (lowerL s)) := stripUnders_mem hc
  have h2 : c ∈ subNonWord (lowerL s) := collapseUnders_mem h1
  obtain ⟨a, _, ha⟩ := List.mem_map.mp h2
  by_cases hw : (isWordChar a || a = '-') = true
  · rw [if_pos hw] at ha
    rw [ha] at hw
    exact hw
  · rw [if_neg hw] at ha
    rw [← ha]
    decide

/-- C6, counterexample: the specification says every non-word character is
replaced by an underscore, but the regex class of `_clean_template_name`
also keeps hyphens, so the name "a-b" keeps its hyphen where the described
normalization would give "a_b". -/
theorem c6_clean_name_counterexample :
    cleanTemplateName "a-b".data = "a-b".data
    ∧ specCleanTemplateName "a-b".data = "a_b".data
    ∧ cleanTemplateName "a-b".data ≠ specCleanTemplateName "a-b".data := by
  decide

/-- C6, amended: the normalization lowercases the name, replaces every
non-word character other than a hyphen by an underscore (hyphens are
kept), collapses runs of underscores and strips outer underscores;
consequently the result consists of word characters and hyphens only,
never holds a double underscore, never starts or ends with one, and the
name "My Resume!" normalizes to the key "my_resume". -/
theorem c6_clean_name_amended :
    (∀ s : List Char, cleanTemplateName s = amendedCleanTemplateName s)
    ∧ (∀ s : List Char, ∀ c ∈ cleanTemplateName s, (isWordChar c || c = '-') = true)
    ∧ (∀ s : List Char, containsSub "__".data (cleanTemplateName s) = false)
    ∧ (∀ s : List Char, hasPre "_".data (cleanTemplateName s) = false
          ∧ hasSuf "_".data (cleanTemplateName s) = false)
    ∧ cleanName "My Resume!" = "my_resume"
    ∧ cleanName "AbC-d  e" = "abc-d_e" :=
  ⟨fun _ => rfl, cleanTemplateName_alphabet,
    cleanTemplateName_noDD,
    fun s => ⟨cleanTemplateName_no_lead s, cleanTemplateName_no_trail s⟩,
    by decide, by decide⟩

/-- C6, witness: the amended normalization properties evaluated on the
concrete name "My Resume!". -/
theorem c6_clean_name_amended_witness :
    ('m' ∈ cleanTemplateName "My Resume!".data →
        (isWordChar 'm' || 'm' = '-') = true)
    ∧ containsSub "__".data (cleanTemplateName "My Resume!".data) = false
    ∧ hasPre "_".data (cleanTemplateName "My Resume!".data) = false :=
  ⟨fun h => c6_clean_name_amended.2.1 _ 'm' h,
    c6_clean_name_amended.2.2.1 _,
    (c6_clean_name_amended.2.2.2.1 _).1⟩

/-! ## Template store: duplicate rejection and round-trip -/

/-- C2: saving under a name whose normalized form already denotes a stored
template file fails with the duplicate error and returns the store
unchanged — no stored file and no metadata entry is touched. -/
theorem c2_save_duplicate_rejected (srcFs : List (String × List Char))
    (store : TemplateStore) (htmlFile templateName description : String)
    (content old : List Char)
    (hsrc : plookup srcFs htmlFile = some content)
    (hdup : plookup store.files (cleanName templateName) = some old) :
    saveAsTemplate srcFs store htmlFile templateName description
      = (.error .fileExists, store) := by
  rw [saveAsTemplate, hsrc]
  simp [hdup]

/-- C2, witness: a concrete store already holding the key "resume". -/
theorem c2_save_duplicate_rejected_witness :
    saveAsTemplate [("a.html", "<p>x</p>".data)]
        ⟨[("resume", "<p>old</p>".data)], []⟩ "a.html" "Resume" "d"
      = (.error .fileExists, ⟨[("resume", "<p>old</p>".data)], []⟩) :=
  c2_save_duplicate_rejected _ _ _ _ _ "<p>x</p>".data "<p>old</p>".data
    (by decide) (by decide)

/-- C3: saving a fresh template and loading it back under the same name
returns exactly the source file's content. -/
theorem c3_save_load_roundtrip (srcFs : List (String × List Char))
    (store : TemplateStore) (htmlFile templateName description : String)
    (content : List Char)
    (hsrc : plookup srcFs htmlFile = some content)
    (hfresh : plookup store.files (cleanName templateName) = none) :
    ∃ path store',
      saveAsTemplate srcFs store htmlFile templateName description
        = (.ok path, store')
      ∧ loadTemplate store' templateName = .ok content := by
  refine ⟨savedTemplatesDir ++ "/" ++ cleanName templateName ++ ".html", ?_, ?_, ?_⟩
  · exact
      { files := (cleanName templateName, content) :: store.files
        metadata := (cleanName templateName,
          { name := templateName
            filename := cleanName templateName ++ ".html"
            description := description
            originalFile := htmlFile
            fileSize := content.length }) :: store.metadata }
  · rw [saveAsTemplate, hsrc]
    simp [hfresh]
  · rw [loadTemplate]
    simp [plookup]

/-- C3, witness: round-trip of a concrete file through a concrete store. -/
theorem c3_save_load_roundtrip_witness :
    ∃ path store',
      saveAsTemplate [("a.html", "<p>x</p>".data)] ⟨[], []⟩ "a.html" "My CV" "d"
        = (.ok path, store')
      ∧ loadTemplate store' "My CV" = .ok "<p>x</p>".data :=
  c3_save_load_roundtrip _ _ _ _ _ "<p>x</p>".data (by decide) (by decide)

/-! ## Lemmas about `_optimize_for_pdf` -/

theorem replaceAll_occurrence {pat s : List Char} (repl : List Char)
    (hne : pat ≠ []) (h : containsSub pat s = true) :
    ∃ u v, replaceAll s pat repl = u ++ repl ++ v := by
  induction s with
  | nil =>
    cases pat with
    | nil => exact absurd rfl hne
    | cons a as => simp [containsSub, findSub, hasPre] at h
  | cons c rest ih =>
    by_cases hp : hasPre pat (c :: rest) = true
    · have hcond : (decide ¬(pat = []) && hasPre pat (c :: rest)) = true := by
        simp [hne, hp]
      refine ⟨[], replaceAll (rest.drop (pat.length - 1)) pat repl, ?_⟩
      rw [replaceAll, if_pos hcond]
      simp
    · have hcond : ¬ ((decide ¬(pat = []) && hasPre pat (c :: rest)) = true) := by
        simp [hp]
      have h2 : containsSub pat rest = true := by
        rw [containsSub, findSub, if_neg hp] at h
        cases hfs : findSub pat rest with
        | none => rw [hfs] at h; exact absurd h (by simp)
        | some j => simp [containsSub, hfs]
      obtain ⟨u, v, huv⟩ := ih h2
      refine ⟨c :: u, v, ?_⟩
      rw [replaceAll, if_neg hcond, huv]
      simp

theorem optimizeForPdf_shape (html : List Char) (style : String) :
    (containsSub "</head>".data html = true →
      ∃ u v, optimizeForPdf html style
        = u ++ pdfCss (getStyleConfig style) ++ "</head>".data ++ v)
    ∧ (containsSub "</head>".data html = false →
        containsSub "<body>".data html = true →
      ∃ u v, optimizeForPdf html style
        = u ++ pdfCss (getStyleConfig style) ++ "<body>".data ++ v)
    ∧ (containsSub "</head>".data html = false →
        containsSub "<body>".data html = false →
      optimizeForPdf html style = pdfCss (getStyleConfig style) ++ html) := by
  refine ⟨?_, ?_, ?_⟩
  · intro h1
    obtain ⟨u, v, huv⟩ :=
      replaceAll_occurrence (s := html)
        (pdfCss (getStyleConfig style) ++ "</head>".data) (by decide) h1
    refine ⟨u, v, ?_⟩
    rw [optimizeForPdf, if_pos h1, huv]
    simp [List.append_assoc]
  · intro h1 h2
    obtain ⟨u, v, huv⟩ :=
      replaceAll_occurrence (s := html)
        (pdfCss (getStyleConfig style) ++ "<body>".data) (by decide) h2
    refine ⟨u, v, ?_⟩
    rw [optimizeForPdf, if_neg (by simp [h1]), if_pos h2, huv]
    simp [List.append_assoc]
  · intro h1 h2
    rw [optimizeForPdf, if_neg (by simp [h1]), if_neg (by simp [h2])]

theorem optimizeForPdf_contains_css (html : List Char) (style : String) :
    ∃ u v, optimizeForPdf html style = u ++ pdfCss (getStyleConfig style) ++ v := by
  obtain ⟨hA, hB, hC⟩ := optimizeForPdf_shape html style
  by_cases h1 : containsSub "</head>".data html = true
  · obtain ⟨u, v, huv⟩ := hA h1
    exact ⟨u, "</head>".data ++ v, by rw [huv]; simp⟩
  · have h1' : containsSub "</head>".data html = false := by
      cases hx : containsSub "</head>".data html
      · rfl
      · exact absurd hx h1
    by_cases h2 : containsSub "<body>".data html = true
    · obtain ⟨u, v, huv⟩ := hB h1' h2
      exact ⟨u, "<body>".data ++ v, by rw [huv]; simp⟩
    · have h2' : containsSub "<body>".data html = false := by
        cases hx : containsSub "<body>".data html
        · rfl
        · exact absurd hx h2
      exact ⟨[], html, by rw [hC h1' h2']; simp⟩

/-- C7: the three style keywords select exactly the documented margin /
font-size / line-height parameters, the generated CSS block contains
exactly those three declarations for whichever configuration is chosen,
and for each of the three keywords that CSS block is injected into the
HTML before rendering. -/
theorem c7_style_configs :
    (getStyleConfig "professional" = ⟨"0.75in", "11pt", "1.4"⟩
      ∧ getStyleConfig "compact" = ⟨"0.5in", "10pt", "1.3"⟩
      ∧ getStyleConfig "detailed" = ⟨"1in", "12pt", "1.5"⟩)
    ∧ (∀ c : StyleConfig,
        (∃ u v, pdfCss c = u ++ ("margin: ".data ++ c.margin.data ++ ";".data) ++ v)
        ∧ (∃ u v, pdfCss c = u ++ ("font-size: ".data ++ c.fontSize.data ++ ";".data) ++ v)
        ∧ (∃ u v, pdfCss c = u ++ ("line-height: ".data ++ c.lineHeight.data ++ ";".data) ++ v))
    ∧ (∀ html : List Char, ∀ style ∈ (["professional", "compact", "detailed"] : List String),
        ∃ u v, optimizeForPdf html style = u ++ pdfCss (getStyleConfig style) ++ v) := by
  refine ⟨⟨by decide, by decide, by decide⟩, ?_, ?_⟩
  · intro c
    refine ⟨⟨cssA.data, ?_, ?_⟩, ⟨cssA.data ++ ("margin: ".data ++ c.margin.data ++ ";".data) ++ cssB.data, ?_, ?_⟩, ⟨cssA.data ++ ("margin: ".data ++ c.margin.data ++ ";".data) ++ cssB.data ++ ("font-size: ".data ++ c.fontSize.data ++ ";".data) ++ cssC.data, ?_, ?_⟩⟩
    · exact cssB.data ++ ("font-size: ".data ++ c.fontSize.data ++ ";".data)
        ++ cssC.data ++ ("line-height: ".data ++ c.lineHeight.data ++ ";".data)
        ++ cssD.data ++ ("font-size: ".data ++ c.fontSize.data ++ " !important;".data)
        ++ cssE.data
    · simp [pdfCss, List.append_assoc]
    · exact cssC.data ++ ("line-height: ".data ++ c.lineHeight.data ++ ";".data)
        ++ cssD.data ++ ("font-size: ".data ++ c.fontSize.data ++ " !important;".data)
        ++ cssE.data
    · simp [pdfCss, List.append_assoc]
    · exact cssD.data ++ ("font-size: ".data ++ c.fontSize.data ++ " !important;".data)
        ++ cssE.data
    · simp [pdfCss, List.append_assoc]
  · intro html style _
    exact optimizeForPdf_contains_css html style

/-- C7, witness: the parameter equations and the injection, evaluated for
the "compact" keyword on a small concrete document. -/
theorem c7_style_configs_witness :
    getStyleConfig "compact" = ⟨"0.5in", "10pt", "1.3"⟩
    ∧ ∃ u v, optimizeForPdf "<p>x</p>".data "compact"
        = u ++ pdfCss (getStyleConfig "compact") ++ v :=
  ⟨c7_style_configs.1.2.1,
    c7_style_configs.2.2 "<p>x</p>".data "compact" (by decide)⟩

/-- C10: a style keyword outside the enumerated set silently falls back to
the professional configuration; the CSS block is always present in the
output, inserted before the closing head tag when one exists, else before
the body tag, else prepended to the whole content. -/
theorem c10_unknown_style_fallback :
    (∀ style : String,
        style ∉ (["professional", "compact", "detailed"] : List String) →
        getStyleConfig style = ⟨"0.75in", "11pt", "1.4"⟩)
    ∧ (∀ (html : List Char) (style : String),
        ∃ u v, optimizeForPdf html style = u ++ pdfCss (getStyleConfig style) ++ v)
    ∧ (∀ (html : List Char) (style : String),
        (containsSub "</head>".data html = true →
          ∃ u v, optimizeForPdf html style
            = u ++ pdfCss (getStyleConfig style) ++ "</head>".data ++ v)
        ∧ (containsSub "</head>".data html = false →
            containsSub "<body>".data html = true →
          ∃ u v, optimizeForPdf html style
            = u ++ pdfCss (getStyleConfig style) ++ "<body>".data ++ v)
        ∧ (containsSub "</head>".data html = false →
            containsSub "<body>".data html = false →
          optimizeForPdf html style = pdfCss (getStyleConfig style) ++ html)) := by
  refine ⟨?_, optimizeForPdf_contains_css, optimizeForPdf_shape⟩
  intro style hstyle
  simp only [List.mem_cons, List.not_mem_nil, or_false, not_or] at hstyle
  obtain ⟨h1, h2, h3⟩ := hstyle
  rw [getStyleConfig, styleConfigs]
  rw [plookup, if_neg (fun h => h1 h.symm)]
  rw [plookup, if_neg (fun h => h2 h.symm)]
  rw [plookup, if_neg (fun h => h3 h.symm)]
  rw [plookup]
  rfl

/-- C10, witness: the unknown keyword "fancy" yields the professional
parameters, and on a document with neither head nor body tag the CSS block
is prepended. -/
theorem c10_unknown_style_fallback_witness :
    getStyleConfig "fancy" = ⟨"0.75in", "11pt", "1.4"⟩
    ∧ optimizeForPdf "plain text".data "fancy"
        = pdfCss (getStyleConfig "fancy") ++ "plain text".data :=
  ⟨c10_unknown_style_fallback.1 "fancy" (by decide),
    (c10_unknown_style_fallback.2.2 "plain text".data "fancy").2.2
      (by decide) (by decide)⟩

/-! ## PDF export dispatch with no automated backend -/

theorem browserInstructions_contains_temp (tempHtml outputPath : String) :
    containsSub tempHtml.data (browserInstructions tempHtml outputPath) = true := by
  have h : browserInstructions tempHtml outputPath
      = instrA.data ++ tempHtml.data
        ++ (instrB.data ++ tempHtml.data ++ instrC.data ++ outputPath.data
            ++ instrD.data ++ tempHtml.data ++ "\n".data) := by
    rw [browserInstructions]
    simp [List.append_assoc]
  rw [h]
  exact occ_containsSub tempHtml.data instrA.data _

/-- C1: with neither pyppeteer nor WeasyPrint importable the backend is the
browser fallback, and `convert_html_to_pdf` — for any filesystem, any HTML
argument (file path or literal markup) and any style — returns the manual
instructions, which name the path of the print-optimized HTML file the
call wrote; the embedded dispatch is total, so no exception escapes. -/
theorem c1_browser_dispatch_returns_instructions
    (e : PDFExporter) (oracle : RenderOracle) (fs : StrFS)
    (htmlPath : String) (outputName : Option String) (style : String)
    (hp : e.pyppeteerLoaded = false) (hw : e.weasyprintLoaded = false) :
    ∃ (tempHtml outputPath : String) (html : List Char),
      (convertHtmlToPdf e oracle fs htmlPath outputName style).1
        = browserInstructions tempHtml outputPath
      ∧ containsSub tempHtml.data
          (convertHtmlToPdf e oracle fs htmlPath outputName style).1 = true
      ∧ plookup (convertHtmlToPdf e oracle fs htmlPath outputName style).2 tempHtml
          = some (optimizeForPdf html style) := by
  obtain ⟨pL, wL⟩ := e
  simp only at hp hw
  subst hp
  subst hw
  refine ⟨_, _,
    (if (hasSuf ".html".data htmlPath.data && (plookup fs htmlPath).isSome) = true
      then (plookup fs htmlPath).getD [] else htmlPath.data),
    rfl, ?_, ?_⟩
  · exact browserInstructions_contains_temp _ _
  · show plookup (generateWithBrowser _ _ style fs).2 _ = _
    simp [generateWithBrowser, fsWrite, plookup]

/-- C1, witness: concrete browser-only exporter on a literal markup
argument. -/
theorem c1_browser_dispatch_returns_instructions_witness :
    ∃ (tempHtml outputPath : String) (html : List Char),
      (convertHtmlToPdf ⟨false, false⟩ ⟨none, none⟩ [] "<p>hi</p>" none "professional").1
        = browserInstructions tempHtml outputPath
      ∧ containsSub tempHtml.data
          (convertHtmlToPdf ⟨false, false⟩ ⟨none, none⟩ [] "<p>hi</p>" none "professional").1 = true
      ∧ plookup (convertHtmlToPdf ⟨false, false⟩ ⟨none, none⟩ [] "<p>hi</p>" none "professional").2 tempHtml
          = some (optimizeForPdf html "professional") :=
  c1_browser_dispatch_returns_instructions ⟨false, false⟩ ⟨none, none⟩ []
    "<p>hi</p>" none "professional" rfl rfl

/-! ## Document converter: dimension bound and error cases -/

theorem optimizeDims_le (w h : Nat) :
    (optimizeDims w h).1 ≤ maxImgSize ∧ (optimizeDims w h).2 ≤ maxImgSize := by
  have hms : (maxImgSize : Nat) = 2048 := rfl
  rw [optimizeDims]
  by_cases hgt : max w h > maxImgSize
  · rw [if_pos hgt]
    have hm0 : 0 < max w h := by omega
    constructor
    · show w * maxImgSize / max w h ≤ maxImgSize
      calc w * maxImgSize / max w h
          ≤ max w h * maxImgSize / max w h :=
            Nat.div_le_div_right (Nat.mul_le_mul_right _ (le_max_left w h))
        _ = maxImgSize := Nat.mul_div_cancel_left _ hm0
    · show h * maxImgSize / max w h ≤ maxImgSize
      calc h * maxImgSize / max w h
          ≤ max w h * maxImgSize / max w h :=
            Nat.div_le_div_right (Nat.mul_le_mul_right _ (le_max_right w h))
        _ = maxImgSize := Nat.mul_div_cancel_left _ hm0
  · rw [if_neg hgt]
    have hle : max w h ≤ maxImgSize := Nat.le_of_not_lt hgt
    exact ⟨le_trans (le_max_left w h) hle, le_trans (le_max_right w h) hle⟩

theorem pdfToScreenshot_ok {pages : List (Nat × Nat)} {outPath out : String}
    {w h : Nat} (hok : pdfToScreenshot pages outPath = .ok (out, w, h)) :
    out = outPath ∧ max w h ≤ 2048 := by
  cases pages with
  | nil => simp [pdfToScreenshot] at hok
  | cons p rest =>
    obtain ⟨pw, ph⟩ := p
    simp only [pdfToScreenshot, Except.ok.injEq, Prod.mk.injEq] at hok
    obtain ⟨h1, h2, h3⟩ := hok
    refine ⟨h1.symm, ?_⟩
    have := optimizeDims_le pw ph
    rw [h2, h3] at this
    exact max_le this.1 this.2

theorem officeToScreenshot_ok {doc : DocFile} {outPath out : String}
    {w h : Nat} (hok : officeToScreenshot doc outPath = .ok (out, w, h)) :
    out = outPath ∧ max w h ≤ 2048 := by
  cases doc with
  | pdf pages => simp [officeToScreenshot] at hok
  | img iw ih => simp [officeToScreenshot] at hok
  | office conv =>
    cases conv with
    | none => simp [officeToScreenshot] at hok
    | some pages => exact pdfToScreenshot_ok hok

theorem hasSuf_data_append (x suf : String) :
    hasSuf suf.data (x ++ suf).data = true := by
  show hasPre suf.data.reverse (x ++ suf).data.reverse = true
  rw [String.data_append, List.reverse_append]
  exact hasPre_self_append suf.data.reverse x.data.reverse

/-- C5: whenever `convert_to_screenshot` succeeds, the saved screenshot's
dimensions never exceed 2048 on the longest side, and its path carries the
.png extension. -/
theorem c5_screenshot_dimensions_bounded
    (fs : List (String × DocFile)) (filePath : String)
    (outputName : Option String) (out : String) (w h : Nat)
    (hok : convertToScreenshot fs filePath outputName = .ok (out, w, h)) :
    max w h ≤ 2048 ∧ hasSuf ".png".data out.data = true := by
  cases hl : plookup fs filePath with
  | none =>
    rw [convertToScreenshot.eq_def, hl] at hok
    exact absurd hok (by simp)
  | some doc =>
    rw [convertToScreenshot.eq_def, hl] at hok
    simp only at hok
    split at hok
    · cases doc with
      | pdf pages =>
        obtain ⟨h1, h2⟩ := pdfToScreenshot_ok hok
        exact ⟨h2, by rw [h1]; exact hasSuf_data_append _ _⟩
      | img iw ih => exact absurd hok (by simp)
      | office conv => exact absurd hok (by simp)
    · split at hok
      · obtain ⟨h1, h2⟩ := officeToScreenshot_ok hok
        exact ⟨h2, by rw [h1]; exact hasSuf_data_append _ _⟩
      · split at hok
        · cases doc with
          | pdf pages => exact absurd hok (by simp)
          | office conv => exact absurd hok (by simp)
          | img iw ih =>
            simp only [Except.ok.injEq, Prod.mk.injEq] at hok
            obtain ⟨h1, h2, h3⟩ := hok
            have hb := optimizeDims_le iw ih
            rw [h2, h3] at hb
            exact ⟨max_le hb.1 hb.2, by rw [← h1]; exact hasSuf_data_append _ _⟩
        · obtain ⟨h1, h2⟩ := officeToScreenshot_ok hok
          exact ⟨h2, by rw [h1]; exact hasSuf_data_append _ _⟩

/-- C5, witness: a one-page resume.pdf rendered at 300 DPI (US-letter
pixmap 2550×3300) yields resume_screenshot.png with both sides at most
2048. -/
theorem c5_screenshot_dimensions_bounded_witness :
    convertToScreenshot [("resume.pdf", DocFile.pdf [(2550, 3300)])]
        "resume.pdf" none
      = .ok ("output/screenshots/resume_screenshot.png", 1582, 2048)
    ∧ max 1582 2048 ≤ 2048
    ∧ hasSuf ".png".data "output/screenshots/resume_screenshot.png".data = true := by
  have hok : convertToScreenshot [("resume.pdf", DocFile.pdf [(2550, 3300)])]
      "resume.pdf" none
      = .ok ("output/screenshots/resume_screenshot.png", 1582, 2048) := rfl
  have hmain := c5_screenshot_dimensions_bounded _ _ _ _ _ _ hok
  exact ⟨hok, hmain.1, hmain.2⟩

/-- C8: a missing input file is reported as the not-found error before any
conversion, and a PDF input with zero pages is reported as the zero-page
validation error. -/
theorem c8_converter_error_cases
    (fs : List (String × DocFile)) (filePath : String)
    (outputName : Option String) :
    (plookup fs filePath = none →
      convertToScreenshot fs filePath outputName = .error .fileNotFound)
    ∧ (plookup fs filePath = some (DocFile.pdf []) →
        lowerStr (pathSuffix filePath) = ".pdf" →
      convertToScreenshot fs filePath outputName = .error .zeroPages) := by
  constructor
  · intro hnone
    rw [convertToScreenshot.eq_def, hnone]
  · intro hsome hext
    rw [convertToScreenshot.eq_def, hsome]
    simp only [hext]
    simp [pdfToScreenshot]

/-- C8, witness: both error cases on concrete inputs. -/
theorem c8_converter_error_cases_witness :
    convertToScreenshot [] "missing.pdf" none = .error .fileNotFound
    ∧ convertToScreenshot [("empty.pdf", DocFile.pdf [])] "empty.pdf" none
        = .error .zeroPages :=
  ⟨(c8_converter_error_cases [] "missing.pdf" none).1 (by decide),
    (c8_converter_error_cases [("empty.pdf", DocFile.pdf [])] "empty.pdf" none).2
      (by decide) (by decide)⟩

/-! ## HTML validation checklist and score -/

theorem missingTags_empty_iff (s : List Char) :
    (missingTags s).isEmpty = true
      ↔ ∀ t ∈ requiredTags, containsSub (lowerL t) (lowerL s) = true := by
  rw [missingTags, List.isEmpty_iff, List.filter_eq_nil_iff]
  constructor
  · intro h t ht
    have := h t ht
    simpa using this
  · intro h t ht
    simpa using h t ht

/-- C9: both validators test exactly the four structural tags
case-insensitively and set `valid` to false precisely when at least one is
missing; the quality score of `validate_edited_html` always lies between 0
and 100 and equals 100 minus 15 per missing-tag issue, minus 5 per warning
(one warning per failing quality check), minus a further fixed 10 for each
of short content, missing styling and fewer than two headings, clamped
below at 0. -/
theorem c9_validation_checklist_and_score (s : List Char) :
    requiredTags.length = 4
    ∧ ((validateEditedHtml s).valid = true ↔
        ∀ t ∈ requiredTags, containsSub (lowerL t) (lowerL s) = true)
    ∧ ((validateHtml s).valid = true ↔
        ∀ t ∈ requiredTags, containsSub (lowerL t) (lowerL s) = true)
    ∧ 0 ≤ (validateEditedHtml s).qualityScore
    ∧ (validateEditedHtml s).qualityScore ≤ 100
    ∧ (validateEditedHtml s).qualityScore
        = max 0 (100 - 15 * ((missingTags s).length : Int)
            - 5 * ((if s.length < 1000 then 1 else 0)
                + (if hasStyling s = true then 0 else 1)
                + (if countSub "<h".data s < 2 then 1 else 0) : Int)
            - (if s.length < 1000 then 10 else 0)
            - (if hasStyling s = true then 0 else 10)
            - (if countSub "<h".data s < 2 then 10 else 0)) := by
  refine ⟨rfl, missingTags_empty_iff s, missingTags_empty_iff s, le_max_left 0 _, ?_, ?_⟩
  · by_cases h1 : s.length < 1000 <;>
      by_cases h2 : hasStyling s = true <;>
      by_cases h3 : countSub "<h".data s < 2 <;>
      · simp only [validateEditedHtml, List.length_map, List.length_append, h1, h2, h3,
          if_true, if_false]
        try simp [h1, h2, h3]
        try omega
  · by_cases h1 : s.length < 1000 <;>
      by_cases h2 : hasStyling s = true <;>
      by_cases h3 : countSub "<h".data s < 2 <;>
      · simp only [validateEditedHtml, List.length_map, List.length_append, h1, h2, h3,
          if_true, if_false]
        try simp [h1, h2, h3]
        try omega

end CV
